import Mathlib

/-!
# Verification of the repo-branch orchestration pipeline

A shallow embedding of `src/src/index.ts` (the `repo-branch` CLI tool).
External-service interactions (the `gh` CLI invocations made through
`exec`) are modelled as explicit response environments (`GhWorld`,
`RunWorld`): each field records the stdout or error that the external
world returns for one kind of call.  Thrown JavaScript errors are
modelled by `JsError` values carried in `Except`.
-/

/-- A thrown JavaScript `Error` as the code observes it: a `message`
and, for errors coming from `child_process.exec`, an optional `stderr`
field (`none` models `undefined`). -/
structure JsError where
  message : String
  stderr : Option String := none
deriving DecidableEq, Repr

/-- Boolean test that `pat` occurs as a contiguous run at the front of `s`
(on character lists). -/
def charsPrefixOf : List Char → List Char → Bool
  | [], _ => true
  | _ :: _, [] => false
  | a :: as, b :: bs => a == b && charsPrefixOf as bs

/-- Boolean test that `pat` occurs contiguously somewhere in `s`
(on character lists). -/
def charsInfixOf (pat : List Char) : List Char → Bool
  | [] => charsPrefixOf pat []
  | c :: rest => charsPrefixOf pat (c :: rest) || charsInfixOf pat rest

/-- Model of JavaScript `s.includes(pat)` on strings. -/
def jsIncludes (s pat : String) : Bool :=
  charsInfixOf pat.data s.data

/-- Model of JavaScript `s || d` for a string `s`: the empty string is
falsy, every other string is truthy. -/
def jsOr (s d : String) : String :=
  if s.isEmpty then d else s

/-- Model of JavaScript `x || d` where `x` is a string or
`undefined`/`null` (modelled as `Option String`). -/
def jsOrOpt (x : Option String) (d : String) : String :=
  match x with
  | none => d
  | some s => jsOr s d

/-- The characters JavaScript `s.trim()` removes: the WhiteSpace and
LineTerminator productions (ASCII whitespace, NBSP, BOM, the Unicode
space separators, and the line/paragraph separators). -/
def isJsWhitespace (c : Char) : Bool :=
  c == ' ' || c == '\t' || c == '\n' || c == '\r' ||
  c == '\x0b' || c == '\x0c' || c == '\u00A0' || c == '\uFEFF' ||
  c == '\u1680' || ('\u2000' ≤ c && c ≤ '\u200A') ||
  c == '\u2028' || c == '\u2029' || c == '\u202F' || c == '\u205F' ||
  c == '\u3000'

/-- Model of JavaScript `s.trim()`: strip leading and trailing
whitespace. -/
def jsTrim (s : String) : String :=
  ⟨((s.data.dropWhile isJsWhitespace).reverse.dropWhile isJsWhitespace).reverse⟩

/-- Model of `error.stderr && error.stderr.includes("Reference already exists")`
(src/src/index.ts line 111): `undefined` and `""` stderr are falsy. -/
def stderrIndicatesRefExists (e : JsError) : Bool :=
  match e.stderr with
  | none => false
  | some s => !s.isEmpty && jsIncludes s "Reference already exists"

/-- The error thrown by `createBranch` when the ref-creation conflict
signal is recognised: `new Error("Branch already exists")`
(src/src/index.ts line 112). -/
def branchExistsError : JsError :=
  { message := "Branch already exists", stderr := none }

/-- Responses of the external GitHub world to the three `gh` calls that
`createBranch` makes, keyed by the owner/repository (and branch/sha)
arguments interpolated into the commands. -/
structure GhWorld where
  /-- stdout of `gh repo view owner/repo --json defaultBranchRef --jq ...`. -/
  viewDefaultBranch : String → String → Except JsError String
  /-- stdout of `gh api repos/owner/repo/git/refs/heads/branch --jq .object.sha`. -/
  refSha : String → String → String → Except JsError String
  /-- result of `gh api repos/owner/repo/git/refs -f ref=refs/heads/branchName -f sha=sha`. -/
  createRef : String → String → String → String → Except JsError Unit

/-- One external call issued by `createBranch`, recorded with the
arguments interpolated into the command. -/
inductive GhCall where
  | viewDefaultBranch (owner repo : String)
  | refSha (owner repo branch : String)
  | createRef (owner repo branchName sha : String)
deriving DecidableEq, Repr

/-- The repository the call is addressed to. -/
def GhCall.repo : GhCall → String
  | .viewDefaultBranch _ r => r
  | .refSha _ r _ => r
  | .createRef _ r _ _ => r

/-- The catch clause of `createBranch` (src/src/index.ts lines 110-115):
an error whose `stderr` contains the conflict signal is translated to
`Error("Branch already exists")`; every other error is rethrown as is. -/
def translateCreateBranchError (e : JsError) : JsError :=
  if stderrIndicatesRefExists e then branchExistsError else e

/-- `createBranch` (src/src/index.ts lines 88-116), instrumented with the
trace of external calls it issues: (a) re-fetch the default branch name,
defaulting a falsy (empty after trim) answer to `"main"`; (b) look up the
head commit sha of that branch; (c) create `refs/heads/<branchName>` at
that sha.  Any error thrown inside the try block passes through the
catch clause `translateCreateBranchError`. -/
def createBranchT (w : GhWorld) (owner repoName branchName : String) :
    List GhCall × Except JsError Unit :=
  let c1 := GhCall.viewDefaultBranch owner repoName
  match w.viewDefaultBranch owner repoName with
  | .error e => ([c1], .error (translateCreateBranchError e))
  | .ok dbOut =>
    let defaultBranch := jsOr (jsTrim dbOut) "main"
    let c2 := GhCall.refSha owner repoName defaultBranch
    match w.refSha owner repoName defaultBranch with
    | .error e => ([c1, c2], .error (translateCreateBranchError e))
    | .ok shaOut =>
      let sha := jsTrim shaOut
      let c3 := GhCall.createRef owner repoName branchName sha
      match w.createRef owner repoName branchName sha with
      | .error e => ([c1, c2, c3], .error (translateCreateBranchError e))
      | .ok _ => ([c1, c2, c3], .ok ())

/-- The observable result of `createBranch`: resolves, or rejects with a
(possibly translated) error. -/
def createBranch (w : GhWorld) (owner repoName branchName : String) :
    Except JsError Unit :=
  (createBranchT w owner repoName branchName).2

/-- Per-repository outcome of one branch-creation task, as the Reporter
records it. -/
inductive Outcome where
  | created
  | alreadyExists
  | failed (cause : JsError)
deriving DecidableEq, Repr

/-- The task body built in `run` for one repository (src/src/index.ts
lines 176-185): call `createBranch`; a rejection whose message contains
`"already exists"` is reported as the benign already-exists outcome, any
other rejection is recorded as that task's failure. -/
def taskOutcome (w : GhWorld) (owner branchName repoName : String) : Outcome :=
  match createBranch w owner repoName branchName with
  | .ok _ => .created
  | .error e =>
    if jsIncludes e.message "already exists" then .alreadyExists
    else .failed e

/-- The `Repository` interface (src/src/index.ts lines 20-24). -/
structure Repository where
  name : String
  defaultBranch : String
  full_name : String
deriving DecidableEq, Repr

/-- One element of the JSON array printed by
`gh repo list owner --limit 1000 --json name,defaultBranchRef,nameWithOwner`:
`defaultBranchRefName` models `repo.defaultBranchRef?.name`, with `none`
for a missing/null `defaultBranchRef` (or a missing `name` in it). -/
structure RawRepo where
  name : String
  defaultBranchRefName : Option String
  nameWithOwner : String
deriving DecidableEq, Repr

/-- The per-element normalization in `getRepositories`
(src/src/index.ts lines 76-80): `defaultBranchRef?.name || "main"`. -/
def normalizeRepo (rr : RawRepo) : Repository :=
  { name := rr.name
    defaultBranch := jsOrOpt rr.defaultBranchRefName "main"
    full_name := rr.nameWithOwner }

/-- `getRepositories` (src/src/index.ts lines 68-86): map the listing
response through the normalization, then sort with the comparator
`(a, b) => a.full_name.localeCompare(b.full_name)`.  JavaScript
`Array.prototype.sort` with a comparator `c` is a stable sort placing
`a` before `b` when `c a b ≤ 0`; `localeCompare` is locale-dependent, so
the comparator `cmp` is a parameter of the model. -/
def getRepositories (cmp : String → String → Int) (raw : List RawRepo) :
    List Repository :=
  (raw.map normalizeRepo).mergeSort (fun a b => cmp a.full_name b.full_name ≤ 0)

/-- Modelled from the spec: the Task Runner (the external `listr`
library, whose implementation is not part of this repository's sources)
runs the task built in `run` once per selected repository and records
each task's outcome next to its title, one repository's failure not
preventing any other task from being invoked or its outcome from being
recorded (spec section 4.5). -/
def runTasks (w : GhWorld) (owner branchName : String)
    (repos : List Repository) : List (String × Outcome) :=
  repos.map (fun r => (r.name, taskOutcome w owner branchName r.name))

/-- The external calls issued while running the branch-creation tasks:
each task issues exactly the calls of its own `createBranch` invocation. -/
def runCalls (w : GhWorld) (owner branchName : String)
    (repos : List Repository) : List GhCall :=
  repos.flatMap (fun r => (createBranchT w owner r.name branchName).1)

/-- Explicit-name selection (src/src/index.ts lines 147-150):
`allRepos.filter(repo => repoNames.includes(repo.name))` paired with
`repoNames.filter(name => !allRepos.some(repo => repo.name === name))`. -/
def selectByNames (allRepos : List Repository) (repoNames : List String) :
    List Repository × List String :=
  (allRepos.filter (fun repo => repoNames.contains repo.name),
   repoNames.filter (fun name => !allRepos.any (fun repo => repo.name == name)))

/-- The text interpolated into the repositories-not-found warning
(src/src/index.ts line 154): `notFound.join(", ")`. -/
def notFoundWarningText (notFound : List String) : String :=
  String.intercalate ", " notFound

/-- The whole external world of one `run` invocation: environment
configuration, responses to the identity and listing calls, the
interactive chooser, the locale collation, and the per-repository
branch-creation responses. -/
structure RunWorld where
  /-- `BRANCH_SYNC_GITHUB_ORG`, `""` when unset (src/src/index.ts line 18). -/
  githubOrg : String
  /-- result of `gh api user --jq .login`. -/
  ghUserRaw : Except JsError String
  /-- parsed stdout of `gh repo list ...` (JSON parse failures folded
  into the error case). -/
  listRepos : Except JsError (List RawRepo)
  /-- `a.localeCompare(b)` of the runtime. -/
  localeCompare : String → String → Int
  /-- the inquirer checkbox prompt: maps the offered repositories to the
  chosen ones, or rejects (user cancellation rejects with message
  `"Prompt was cancelled"`). -/
  choose : List Repository → Except JsError (List Repository)
  gh : GhWorld

/-- `getCurrentUser` (src/src/index.ts lines 27-34): trim the reported
login; any failure is replaced by the fixed guidance error. -/
def getCurrentUser (w : RunWorld) : Except JsError String :=
  match w.ghUserRaw with
  | .ok out => .ok (jsTrim out)
  | .error _ =>
    .error { message := "Failed to get GitHub user. Please run \x27gh auth login\x27" }

/-- `validateAndGetOwner` (src/src/index.ts lines 37-56): a truthy
(non-empty) configured organization short-circuits; otherwise the
authenticated identity is queried, errors being printed and rethrown. -/
def validateAndGetOwner (w : RunWorld) : Except JsError String :=
  if !w.githubOrg.isEmpty then .ok w.githubOrg
  else getCurrentUser w

/-- The selection step of `run` (src/src/index.ts lines 144-159):
explicit names (a present, non-empty list) select by name and collect
the not-found warning; otherwise the interactive chooser supplies the
selection and no warning is produced. -/
def selectStep (w : RunWorld) (allRepos : List Repository)
    (repoNames : Option (List String)) :
    Except JsError (List Repository × List String) :=
  match repoNames with
  | some l =>
    if l.length > 0 then .ok (selectByNames allRepos l)
    else (w.choose allRepos).map (fun s => (s, []))
  | none => (w.choose allRepos).map (fun s => (s, []))

/-- The exit code produced by the catch clause of `run`
(src/src/index.ts lines 191-198): cancellation exits 0, everything else
exits 1. -/
def catchCode (e : JsError) : Nat :=
  if e.message = "Prompt was cancelled" then 0 else 1

/-- The observable result of one `run` invocation.  `exitCode` is the
process exit status (0 when `run` returns normally and the process ends).
`selected` is the working set the run settled on, `outcomes` the
per-repository report of the task runner, `calls` the external
branch-creation calls issued. -/
structure RunResult where
  exitCode : Nat
  warnedNotFound : List String
  noneSelectedLogged : Bool
  selected : List Repository
  outcomes : List (String × Outcome)
  calls : List GhCall
  allDoneLogged : Bool
deriving Repr

/-- A `RunResult` for a run aborted by the catch clause before any
selection or task work was recorded. -/
def abortedResult (e : JsError) : RunResult :=
  { exitCode := catchCode e, warnedNotFound := [], noneSelectedLogged := false
    selected := [], outcomes := [], calls := [], allDoneLogged := false }

/-- `run` (src/src/index.ts lines 136-199): resolve the owner, list and
normalize the repositories, select the working set (warning about
explicit names that matched nothing), return early when nothing is
selected, otherwise run one branch-creation task per selected repository
and report.  Errors escaping any step land in the catch clause, which
exits 0 on prompt cancellation and 1 otherwise; a normal return ends the
process with exit code 0. -/
def run (w : RunWorld) (branchName : String)
    (repoNames : Option (List String)) : RunResult :=
  match validateAndGetOwner w with
  | .error e => abortedResult e
  | .ok owner =>
    match w.listRepos with
    | .error e => abortedResult e
    | .ok raw =>
      let allRepos := getRepositories w.localeCompare raw
      match selectStep w allRepos repoNames with
      | .error e => abortedResult e
      | .ok (selectedRepos, notFound) =>
        if selectedRepos.length = 0 then
          { exitCode := 0, warnedNotFound := notFound
            noneSelectedLogged := true, selected := selectedRepos
            outcomes := [], calls := [], allDoneLogged := false }
        else
          { exitCode := 0, warnedNotFound := notFound
            noneSelectedLogged := false, selected := selectedRepos
            outcomes := runTasks w.gh owner branchName selectedRepos
            calls := runCalls w.gh owner branchName selectedRepos
            allDoneLogged := true }


/-! ## Concrete fixtures used by witnesses -/

/-- A sample repository. -/
def repoFoo : Repository :=
  { name := "foo", defaultBranch := "main", full_name := "acme/foo" }

/-- A second sample repository. -/
def repoBar : Repository :=
  { name := "bar", defaultBranch := "develop", full_name := "acme/bar" }

/-- A sample exec error carrying the ref-creation conflict signal on
stderr. -/
def conflictErr : JsError :=
  { message := "Command failed: gh api", stderr := some "Reference already exists (HTTP 422)" }

/-- A sample exec error that is not the conflict signal. -/
def permissionErr : JsError :=
  { message := "Command failed: gh api", stderr := some "HTTP 403: Forbidden" }

/-- A world where ref creation hits the already-exists conflict on
`foo`, fails with a permission error on `bad`, and succeeds elsewhere. -/
def ghWorldMixed : GhWorld :=
  { viewDefaultBranch := fun _ _ => .ok "main\n"
    refSha := fun _ _ _ => .ok "abc123\n"
    createRef := fun _ repo _ _ =>
      if repo = "foo" then .error conflictErr
      else if repo = "bad" then .error permissionErr
      else .ok () }

/-! ## Helper lemmas -/

/-- Every call in the trace of `createBranchT` is addressed to the
repository the call was made for. -/
theorem createBranchT_calls_repo (w : GhWorld) (owner repoName branchName : String) :
    ∀ c ∈ (createBranchT w owner repoName branchName).1, c.repo = repoName := by
  intro c hc
  rcases hv : w.viewDefaultBranch owner repoName with e | dbOut
  · simp only [createBranchT, hv] at hc
    simp only [List.mem_singleton] at hc
    simp [hc, GhCall.repo]
  · rcases hs : w.refSha owner repoName (jsOr (jsTrim dbOut) "main") with e | shaOut
    · simp only [createBranchT, hv, hs] at hc
      simp only [List.mem_cons, List.not_mem_nil, or_false] at hc
      rcases hc with h | h <;> simp [h, GhCall.repo]
    · rcases hr : w.createRef owner repoName branchName (jsTrim shaOut) with e | u
      · simp only [createBranchT, hv, hs, hr] at hc
        simp only [List.mem_cons, List.not_mem_nil, or_false] at hc
        rcases hc with h | h | h <;> simp [h, GhCall.repo]
      · simp only [createBranchT, hv, hs, hr] at hc
        simp only [List.mem_cons, List.not_mem_nil, or_false] at hc
        rcases hc with h | h | h <;> simp [h, GhCall.repo]

/-! ## Claim theorems -/

/-- C4: for every repository set `R` and non-empty explicit-name list
`L`, selection returns exactly the repositories of `R` whose name is a
member of `L` (exact, case-sensitive equality), the warned-about set is
exactly the names of `L` matching no repository, the chosen list is
unchanged when `L` is replaced by any `L'` with the same membership
(reordering, duplication), and the chosen list is a sublist of `R`, so
duplicate names never cause a repository to be processed twice. -/
theorem selectByNames_spec (R : List Repository) (L L' : List String)
    (hL : L ≠ []) (hLL : ∀ n, n ∈ L ↔ n ∈ L') :
    (∀ r : Repository, r ∈ (selectByNames R L).1 ↔ (r ∈ R ∧ r.name ∈ L))
    ∧ (∀ n : String, n ∈ (selectByNames R L).2 ↔ (n ∈ L ∧ ∀ r ∈ R, r.name ≠ n))
    ∧ (selectByNames R L).1 = (selectByNames R L').1
    ∧ (selectByNames R L).1.Sublist R := by
  refine ⟨?_, ?_, ?_, ?_⟩
  · intro r
    simp [selectByNames, List.mem_filter]
  · intro n
    simp only [selectByNames, List.mem_filter]
    constructor
    · rintro ⟨hn, hall⟩
      refine ⟨hn, ?_⟩
      intro r hr hname
      simp only [Bool.not_eq_true'] at hall
      have := List.any_eq_false.mp hall r hr
      simp [hname] at this
    · rintro ⟨hn, hnone⟩
      refine ⟨hn, ?_⟩
      simp only [Bool.not_eq_true']
      apply List.any_eq_false.mpr
      intro r hr
      simp only [beq_iff_eq]
      exact hnone r hr
  · apply List.filter_congr
    intro r _
    have h := hLL r.name
    by_cases hm : r.name ∈ L
    · simp [hm, h.mp hm]
    · have hm' : r.name ∉ L' := fun hc => hm (h.mpr hc)
      simp [hm, hm']
  · exact List.filter_sublist R

/-- C4 witness: selection over `[foo]` with the duplicated, reordered
explicit-name lists `["foo", "baz", "foo"]` and `["baz", "foo"]`. -/
theorem selectByNames_spec_witness :
    (∀ r : Repository, r ∈ (selectByNames [repoFoo] ["foo", "baz", "foo"]).1 ↔
      (r ∈ [repoFoo] ∧ r.name ∈ ["foo", "baz", "foo"]))
    ∧ (∀ n : String, n ∈ (selectByNames [repoFoo] ["foo", "baz", "foo"]).2 ↔
      (n ∈ ["foo", "baz", "foo"] ∧ ∀ r ∈ [repoFoo], r.name ≠ n))
    ∧ (selectByNames [repoFoo] ["foo", "baz", "foo"]).1
        = (selectByNames [repoFoo] ["baz", "foo"]).1
    ∧ (selectByNames [repoFoo] ["foo", "baz", "foo"]).1.Sublist [repoFoo] :=
  selectByNames_spec [repoFoo] ["foo", "baz", "foo"] ["baz", "foo"]
    (by decide)
    (by
      intro n
      simp only [List.mem_cons, List.not_mem_nil, or_false]
      tauto)

/-- C5 counterexample: with repositories `[foo]` and explicit names
`["foo", "baz", "baz"]`, the unmatched name `"baz"` is listed twice in
the warning (`"baz, baz"`), not exactly once: the code filters the given
list without deduplicating it. -/
theorem selectByNames_warning_duplicate_counterexample :
    (selectByNames [repoFoo] ["foo", "baz", "baz"]).2 = ["baz", "baz"]
    ∧ (selectByNames [repoFoo] ["foo", "baz", "baz"]).2.count "baz" = 2
    ∧ ¬ (selectByNames [repoFoo] ["foo", "baz", "baz"]).2.count "baz" = 1
    ∧ notFoundWarningText (selectByNames [repoFoo] ["foo", "baz", "baz"]).2
        = "baz, baz" := by
  refine ⟨by decide, by decide, by decide, ?_⟩
  rfl

/-- C5 amended: the warning lists the unmatched names comma-joined in
the order they were given, with each unmatched name appearing once per
occurrence in the explicit-name list (duplicates are repeated, not
deduplicated), and matched names appearing zero times. -/
theorem selectByNames_warning_occurrences (R : List Repository)
    (L : List String) (hL : L ≠ []) :
    (selectByNames R L).2.Sublist L
    ∧ (∀ n : String, (selectByNames R L).2.count n =
        if R.any (fun r => r.name == n) then 0 else L.count n)
    ∧ notFoundWarningText (selectByNames R L).2 =
        String.intercalate ", "
          (L.filter (fun n => !R.any (fun r => r.name == n))) := by
  refine ⟨List.filter_sublist L, ?_, rfl⟩
  intro n
  rcases hb : R.any (fun r => r.name == n) with _ | _
  · rw [if_neg (by simp [hb])]
    apply List.count_filter
    simp [hb]
  · rw [if_pos (by simp [hb])]
    rw [List.count_eq_zero]
    intro hmem
    have := (List.mem_filter.mp hmem).2
    simp [hb] at this

/-- C5 amended witness: the same concrete run as the counterexample,
checked against the amended statement. -/
theorem selectByNames_warning_occurrences_witness :
    (selectByNames [repoFoo] ["foo", "baz", "baz"]).2.Sublist ["foo", "baz", "baz"]
    ∧ (∀ n : String, (selectByNames [repoFoo] ["foo", "baz", "baz"]).2.count n =
        if [repoFoo].any (fun r => r.name == n) then 0
        else ["foo", "baz", "baz"].count n)
    ∧ notFoundWarningText (selectByNames [repoFoo] ["foo", "baz", "baz"]).2 =
        String.intercalate ", "
          (["foo", "baz", "baz"].filter
            (fun n => !([repoFoo].any (fun r => r.name == n)))) :=
  selectByNames_warning_occurrences [repoFoo] ["foo", "baz", "baz"] (by decide)

/-- C7: every repository whose listing entry carries no default-branch
information is normalized to default branch `"main"`, and the Lister's
output is (up to the sort permutation) exactly the normalized listing,
so such a repository appears in the output with default branch `"main"`. -/
theorem getRepositories_missing_default_main (cmp : String → String → Int)
    (raw : List RawRepo) (rr : RawRepo) (hmem : rr ∈ raw)
    (hmiss : rr.defaultBranchRefName = none) :
    (normalizeRepo rr).defaultBranch = "main"
    ∧ (getRepositories cmp raw).Perm (raw.map normalizeRepo)
    ∧ ∃ r ∈ getRepositories cmp raw,
        r.name = rr.name ∧ r.full_name = rr.nameWithOwner
          ∧ r.defaultBranch = "main" := by
  have hnorm : (normalizeRepo rr).defaultBranch = "main" := by
    simp [normalizeRepo, hmiss, jsOrOpt]
  have hperm : (getRepositories cmp raw).Perm (raw.map normalizeRepo) :=
    List.mergeSort_perm _ _
  refine ⟨hnorm, hperm, normalizeRepo rr, ?_, rfl, rfl, hnorm⟩
  exact hperm.mem_iff.mpr (List.mem_map_of_mem _ hmem)

/-- A listing entry with no default-branch information. -/
def rawNoDefault : RawRepo :=
  { name := "foo", defaultBranchRefName := none, nameWithOwner := "acme/foo" }

/-- C7 witness: a one-element listing whose entry has no
default-branch information. -/
theorem getRepositories_missing_default_main_witness :
    (normalizeRepo rawNoDefault).defaultBranch = "main"
    ∧ (getRepositories (fun _ _ => 0) [rawNoDefault]).Perm
        ([rawNoDefault].map normalizeRepo)
    ∧ ∃ r ∈ getRepositories (fun _ _ => 0) [rawNoDefault],
        r.name = rawNoDefault.name ∧ r.full_name = rawNoDefault.nameWithOwner
          ∧ r.defaultBranch = "main" :=
  getRepositories_missing_default_main (fun _ _ => 0) [rawNoDefault]
    rawNoDefault (by decide) rfl

/-- C10: when the freshly re-fetched default-branch answer is empty
after trimming, the head-commit (sha) lookup that `createBranch` issues
is for branch `"main"`, and no sha lookup for any other branch name is
issued: the `"main"` normalization is applied again at branch-creation
time. -/
theorem createBranch_empty_default_uses_main (w : GhWorld)
    (owner repoName branchName dbOut : String)
    (hview : w.viewDefaultBranch owner repoName = .ok dbOut)
    (hempty : jsTrim dbOut = "") :
    GhCall.refSha owner repoName "main"
        ∈ (createBranchT w owner repoName branchName).1
    ∧ ∀ b : String,
        GhCall.refSha owner repoName b
            ∈ (createBranchT w owner repoName branchName).1 → b = "main" := by
  have hmain : jsOr (jsTrim dbOut) "main" = "main" := by
    rw [hempty]
    rfl
  constructor
  · rcases hs : w.refSha owner repoName "main" with e | shaOut
    · simp only [createBranchT, hview, hmain, hs]
      simp
    · rcases hr : w.createRef owner repoName branchName (jsTrim shaOut) with e | u
      · simp only [createBranchT, hview, hmain, hs, hr]
        simp
      · simp only [createBranchT, hview, hmain, hs, hr]
        simp
  · intro b hb
    rcases hs : w.refSha owner repoName "main" with e | shaOut
    · simp only [createBranchT, hview, hmain, hs] at hb
      simp at hb
      exact hb
    · rcases hr : w.createRef owner repoName branchName (jsTrim shaOut) with e | u
      · simp only [createBranchT, hview, hmain, hs, hr] at hb
        simp at hb
        exact hb
      · simp only [createBranchT, hview, hmain, hs, hr] at hb
        simp at hb
        exact hb

/-- A world whose re-fetched default-branch answer is blank. -/
def ghWorldBlankDefault : GhWorld :=
  { viewDefaultBranch := fun _ _ => .ok "\n"
    refSha := fun _ _ _ => .ok "abc123\n"
    createRef := fun _ _ _ _ => .ok () }

/-- C10 witness: a repository whose default-branch answer is a blank
line; the sha lookup goes to `"main"`. -/
theorem createBranch_empty_default_uses_main_witness :
    GhCall.refSha "acme" "foo" "main"
        ∈ (createBranchT ghWorldBlankDefault "acme" "foo" "feature").1
    ∧ ∀ b : String,
        GhCall.refSha "acme" "foo" b
            ∈ (createBranchT ghWorldBlankDefault "acme" "foo" "feature").1 →
          b = "main" :=
  createBranch_empty_default_uses_main ghWorldBlankDefault "acme" "foo"
    "feature" "\n" rfl (by decide)

/-- C2: when the ref-creation step rejects, an error whose stderr
carries the conflict signal `"Reference already exists"` makes
`createBranch` reject with the dedicated `Error("Branch already exists")`
and the recorded per-repository outcome is `alreadyExists`, never a
generic failure; an error without the conflict signal is rethrown by
`createBranch` exactly as received (the cause), and — unless its message
happens to contain `"already exists"` — is recorded as that
repository's failure outcome carrying that cause. -/
theorem createBranch_conflict_classification (w : GhWorld)
    (owner repoName branchName dbOut shaOut : String) (e : JsError)
    (hview : w.viewDefaultBranch owner repoName = .ok dbOut)
    (hsha : w.refSha owner repoName (jsOr (jsTrim dbOut) "main") = .ok shaOut)
    (hcreate : w.createRef owner repoName branchName (jsTrim shaOut) = .error e) :
    (stderrIndicatesRefExists e = true →
        createBranch w owner repoName branchName = .error branchExistsError
        ∧ taskOutcome w owner branchName repoName = .alreadyExists)
    ∧ (stderrIndicatesRefExists e = false →
        createBranch w owner repoName branchName = .error e)
    ∧ (stderrIndicatesRefExists e = false →
        jsIncludes e.message "already exists" = false →
        taskOutcome w owner branchName repoName = .failed e) := by
  have hT : createBranch w owner repoName branchName
      = .error (translateCreateBranchError e) := by
    simp only [createBranch, createBranchT, hview, hsha, hcreate]
  refine ⟨?_, ?_, ?_⟩
  · intro hconf
    have h1 : createBranch w owner repoName branchName
        = .error branchExistsError := by
      rw [hT]
      simp [translateCreateBranchError, hconf]
    refine ⟨h1, ?_⟩
    simp only [taskOutcome, h1]
    have hinc : jsIncludes branchExistsError.message "already exists" = true := by
      decide
    simp [hinc]
  · intro hconf
    rw [hT]
    simp [translateCreateBranchError, hconf]
  · intro hconf hmsg
    have h1 : createBranch w owner repoName branchName = .error e := by
      rw [hT]
      simp [translateCreateBranchError, hconf]
    simp only [taskOutcome, h1]
    simp [hmsg]

/-- C2 witness: the mixed world's ref-creation conflict on `foo`. -/
theorem createBranch_conflict_classification_witness :
    (stderrIndicatesRefExists conflictErr = true →
        createBranch ghWorldMixed "acme" "foo" "x" = .error branchExistsError
        ∧ taskOutcome ghWorldMixed "acme" "x" "foo" = .alreadyExists)
    ∧ (stderrIndicatesRefExists conflictErr = false →
        createBranch ghWorldMixed "acme" "foo" "x" = .error conflictErr)
    ∧ (stderrIndicatesRefExists conflictErr = false →
        jsIncludes conflictErr.message "already exists" = false →
        taskOutcome ghWorldMixed "acme" "x" "foo" = .failed conflictErr) :=
  createBranch_conflict_classification ghWorldMixed "acme" "foo" "x"
    "main\n" "abc123\n" conflictErr rfl rfl rfl

/-- Two worlds answer all of one repository's branch-creation calls
identically. -/
def ghAgreesOn (w w' : GhWorld) (owner repo : String) : Prop :=
  w.viewDefaultBranch owner repo = w'.viewDefaultBranch owner repo
  ∧ (∀ b : String, w.refSha owner repo b = w'.refSha owner repo b)
  ∧ (∀ bn sha : String, w.createRef owner repo bn sha = w'.createRef owner repo bn sha)

/-- `createBranchT` consults the world only at the repository it is
invoked for. -/
theorem createBranchT_agreesOn (w w' : GhWorld) (owner repo bn : String)
    (h : ghAgreesOn w w' owner repo) :
    createBranchT w owner repo bn = createBranchT w' owner repo bn := by
  obtain ⟨h1, h2, h3⟩ := h
  unfold createBranchT
  rw [h1]
  cases w'.viewDefaultBranch owner repo with
  | error e => rfl
  | ok dbOut =>
    simp only
    rw [h2]
    cases w'.refSha owner repo (jsOr (jsTrim dbOut) "main") with
    | error e => rfl
    | ok shaOut =>
      simp only
      rw [h3]

/-- C1: the outcome list always has one entry per selected repository;
the entry of the `i`-th repository is its own name paired with its own
task's outcome, whatever the other repositories' outcomes
(`BranchCreationFailed`, `AlreadyExists`, or success) are; and that
outcome depends only on the world's answers for that repository, so a
failure or already-exists outcome elsewhere neither prevents the task
from being invoked for it nor changes what is recorded for it. -/
theorem runTasks_isolates_failures (w w' : GhWorld) (owner branchName : String)
    (repos : List Repository) (i : Nat) (h : i < repos.length)
    (hagree : ghAgreesOn w w' owner (repos[i].name)) :
    (runTasks w owner branchName repos).length = repos.length
    ∧ (runTasks w owner branchName repos)[i]? =
        some (repos[i].name, taskOutcome w owner branchName (repos[i].name))
    ∧ taskOutcome w owner branchName (repos[i].name)
        = taskOutcome w' owner branchName (repos[i].name) := by
  refine ⟨List.length_map repos _, ?_, ?_⟩
  · rw [runTasks, List.getElem?_map, List.getElem?_eq_getElem h]
    rfl
  · have hT := createBranchT_agreesOn w w' owner (repos[i].name) branchName hagree
    simp only [taskOutcome, createBranch, hT]

/-- C1 witness: two repositories; ref creation conflicts on `foo` yet
`bar`'s outcome is still recorded, unchanged. -/
theorem runTasks_isolates_failures_witness :
    (runTasks ghWorldMixed "acme" "x" [repoFoo, repoBar]).length =
        [repoFoo, repoBar].length
    ∧ (runTasks ghWorldMixed "acme" "x" [repoFoo, repoBar])[1]? =
        some ([repoFoo, repoBar][1].name,
          taskOutcome ghWorldMixed "acme" "x" ([repoFoo, repoBar][1].name))
    ∧ taskOutcome ghWorldMixed "acme" "x" ([repoFoo, repoBar][1].name)
        = taskOutcome ghWorldMixed "acme" "x" ([repoFoo, repoBar][1].name) :=
  runTasks_isolates_failures ghWorldMixed ghWorldMixed "acme" "x"
    [repoFoo, repoBar] 1 (by decide) ⟨rfl, fun _ => rfl, fun _ _ => rfl⟩

/-- Reduction of `run` when owner resolution, listing and selection all
succeed. -/
theorem run_eq_of_ok (w : RunWorld) (branchName : String)
    (repoNames : Option (List String)) (owner : String) (raw : List RawRepo)
    (sel : List Repository) (notFound : List String)
    (hown : validateAndGetOwner w = .ok owner)
    (hlist : w.listRepos = .ok raw)
    (hsel : selectStep w (getRepositories w.localeCompare raw) repoNames
        = .ok (sel, notFound)) :
    run w branchName repoNames =
      if sel.length = 0 then
        { exitCode := 0, warnedNotFound := notFound, noneSelectedLogged := true
          selected := sel, outcomes := [], calls := [], allDoneLogged := false }
      else
        { exitCode := 0, warnedNotFound := notFound, noneSelectedLogged := false
          selected := sel, outcomes := runTasks w.gh owner branchName sel
          calls := runCalls w.gh owner branchName sel, allDoneLogged := true } := by
  simp only [run, hown, hlist, hsel]

/-- C3: whenever the pre-task pipeline (owner resolution, listing,
selection) succeeds, the run exits with code 0 whatever the
per-repository outcomes are — `AlreadyExists` and failure outcomes are
recorded in the report but never force a non-zero exit. -/
theorem run_perRepo_failures_exit_zero (w : RunWorld) (branchName : String)
    (repoNames : Option (List String)) (owner : String) (raw : List RawRepo)
    (sel : List Repository) (notFound : List String)
    (hown : validateAndGetOwner w = .ok owner)
    (hlist : w.listRepos = .ok raw)
    (hsel : selectStep w (getRepositories w.localeCompare raw) repoNames
        = .ok (sel, notFound)) :
    (run w branchName repoNames).exitCode = 0
    ∧ (sel ≠ [] → (run w branchName repoNames).outcomes
        = runTasks w.gh owner branchName sel) := by
  rw [run_eq_of_ok w branchName repoNames owner raw sel notFound hown hlist hsel]
  by_cases h0 : sel.length = 0
  · rw [if_pos h0]
    exact ⟨rfl, fun hne => absurd (List.length_eq_zero.mp h0) hne⟩
  · rw [if_neg h0]
    exact ⟨rfl, fun _ => rfl⟩

/-- A listing entry for `acme/foo` with default branch `main`. -/
def rawFoo : RawRepo :=
  { name := "foo", defaultBranchRefName := some "main", nameWithOwner := "acme/foo" }

/-- A complete demo world: configured org `acme`, one listed repository
`acme/foo`, and ref creation on `foo` hitting the already-exists
conflict. -/
def runWorldDemo : RunWorld :=
  { githubOrg := "acme"
    ghUserRaw := .ok "user\n"
    listRepos := .ok [rawFoo]
    localeCompare := fun _ _ => 0
    choose := fun rs => .ok rs
    gh := ghWorldMixed }

/-- C3 witness: branch `x` requested on `foo`, whose ref already
exists; the run still exits 0 and the outcome is recorded. -/
theorem run_perRepo_failures_exit_zero_witness :
    (run runWorldDemo "x" (some ["foo"])).exitCode = 0
    ∧ ((selectByNames
          (getRepositories runWorldDemo.localeCompare [rawFoo]) ["foo"]).1 ≠ [] →
        (run runWorldDemo "x" (some ["foo"])).outcomes
          = runTasks runWorldDemo.gh "acme" "x"
              (selectByNames
                (getRepositories runWorldDemo.localeCompare [rawFoo]) ["foo"]).1) :=
  run_perRepo_failures_exit_zero runWorldDemo "x" (some ["foo"]) "acme" [rawFoo]
    (selectByNames (getRepositories runWorldDemo.localeCompare [rawFoo]) ["foo"]).1
    (selectByNames (getRepositories runWorldDemo.localeCompare [rawFoo]) ["foo"]).2
    rfl rfl rfl

/-- C9: a run whose final chosen repository set is empty is not an
error: it logs that no repositories were selected, records no outcome,
issues zero branch-creation calls, and exits with code 0. -/
theorem run_empty_selection_clean (w : RunWorld) (branchName : String)
    (repoNames : Option (List String)) (owner : String) (raw : List RawRepo)
    (notFound : List String)
    (hown : validateAndGetOwner w = .ok owner)
    (hlist : w.listRepos = .ok raw)
    (hsel : selectStep w (getRepositories w.localeCompare raw) repoNames
        = .ok ([], notFound)) :
    (run w branchName repoNames).exitCode = 0
    ∧ (run w branchName repoNames).noneSelectedLogged = true
    ∧ (run w branchName repoNames).outcomes = []
    ∧ (run w branchName repoNames).calls = []
    ∧ (run w branchName repoNames).allDoneLogged = false := by
  rw [run_eq_of_ok w branchName repoNames owner raw [] notFound hown hlist hsel]
  exact ⟨rfl, rfl, rfl, rfl, rfl⟩

/-- C9 witness: explicit name `ghost` matches nothing, the chosen set
is empty, and the run exits cleanly having issued no calls. -/
theorem run_empty_selection_clean_witness :
    (run runWorldDemo "x" (some ["ghost"])).exitCode = 0
    ∧ (run runWorldDemo "x" (some ["ghost"])).noneSelectedLogged = true
    ∧ (run runWorldDemo "x" (some ["ghost"])).outcomes = []
    ∧ (run runWorldDemo "x" (some ["ghost"])).calls = []
    ∧ (run runWorldDemo "x" (some ["ghost"])).allDoneLogged = false := by
  refine run_empty_selection_clean runWorldDemo "x" (some ["ghost"]) "acme"
    [rawFoo] ["ghost"] rfl rfl ?_
  have hA : getRepositories runWorldDemo.localeCompare [rawFoo]
      = [normalizeRepo rawFoo] := by
    simp [getRepositories, List.mergeSort_singleton]
  simp only [selectStep]
  rw [if_pos (by decide)]
  rw [hA]
  simp [selectByNames, normalizeRepo, rawFoo]

/-- C8: when the pre-task pipeline succeeds (and the interactive
chooser, when used, picks from the offered list), the working set is a
subset of the Lister's repositories, every external branch-creation call
is addressed to a listed repository, an explicitly named repository
matching nothing is reported in the not-found warning, and the run still
exits 0 — it is never aborted by a not-found name. -/
theorem run_acts_on_listed_subset (w : RunWorld) (branchName : String)
    (repoNames : Option (List String)) (owner : String) (raw : List RawRepo)
    (sel : List Repository) (notFound : List String)
    (hown : validateAndGetOwner w = .ok owner)
    (hlist : w.listRepos = .ok raw)
    (hchoose : ∀ s : List Repository,
        w.choose (getRepositories w.localeCompare raw) = .ok s →
          s ⊆ getRepositories w.localeCompare raw)
    (hsel : selectStep w (getRepositories w.localeCompare raw) repoNames
        = .ok (sel, notFound)) :
    ((run w branchName repoNames).selected ⊆ getRepositories w.localeCompare raw)
    ∧ (run w branchName repoNames).exitCode = 0
    ∧ (∀ c ∈ (run w branchName repoNames).calls,
        ∃ r ∈ getRepositories w.localeCompare raw, c.repo = r.name)
    ∧ (∀ L : List String, repoNames = some L → L ≠ [] →
        ∀ n ∈ L, (∀ r ∈ getRepositories w.localeCompare raw, r.name ≠ n) →
          n ∈ (run w branchName repoNames).warnedNotFound) := by
  have hrun := run_eq_of_ok w branchName repoNames owner raw sel notFound
    hown hlist hsel
  have hsub : sel ⊆ getRepositories w.localeCompare raw := by
    rcases repoNames with _ | l
    · simp only [selectStep] at hsel
      rcases hc : w.choose (getRepositories w.localeCompare raw) with e | s
      · rw [hc] at hsel
        exact absurd hsel (by simp [Except.map])
      · rw [hc] at hsel
        simp only [Except.map, Except.ok.injEq, Prod.mk.injEq] at hsel
        exact hsel.1 ▸ hchoose s hc
    · simp only [selectStep] at hsel
      by_cases hl : l.length > 0
      · rw [if_pos hl] at hsel
        simp only [Except.ok.injEq] at hsel
        intro r hr
        have h1 : (selectByNames (getRepositories w.localeCompare raw) l).1 = sel := by
          rw [hsel]
        rw [← h1] at hr
        exact (List.filter_sublist _).subset hr
      · rw [if_neg hl] at hsel
        rcases hc : w.choose (getRepositories w.localeCompare raw) with e | s
        · rw [hc] at hsel
          exact absurd hsel (by simp [Except.map])
        · rw [hc] at hsel
          simp only [Except.map, Except.ok.injEq, Prod.mk.injEq] at hsel
          exact hsel.1 ▸ hchoose s hc
  have hwarn : (run w branchName repoNames).warnedNotFound = notFound := by
    rw [hrun]
    by_cases h0 : sel.length = 0
    · rw [if_pos h0]
    · rw [if_neg h0]
  refine ⟨?_, ?_, ?_, ?_⟩
  · rw [hrun]
    by_cases h0 : sel.length = 0
    · rw [if_pos h0]
      exact hsub
    · rw [if_neg h0]
      exact hsub
  · rw [hrun]
    by_cases h0 : sel.length = 0
    · rw [if_pos h0]
    · rw [if_neg h0]
  · rw [hrun]
    by_cases h0 : sel.length = 0
    · rw [if_pos h0]
      intro c hc
      exact absurd hc (List.not_mem_nil c)
    · rw [if_neg h0]
      intro c hc
      obtain ⟨r, hr, hcall⟩ := List.mem_flatMap.mp hc
      exact ⟨r, hsub hr,
        createBranchT_calls_repo w.gh owner r.name branchName c hcall⟩
  · intro L hL hLne n hn hnomatch
    rw [hwarn]
    subst hL
    simp only [selectStep] at hsel
    rw [if_pos (by
      cases L with
      | nil => exact absurd rfl hLne
      | cons a as => simp)] at hsel
    simp only [Except.ok.injEq] at hsel
    have h2 : (selectByNames (getRepositories w.localeCompare raw) L).2 = notFound := by
      rw [hsel]
    rw [← h2]
    apply List.mem_filter.mpr
    refine ⟨hn, ?_⟩
    simp only [Bool.not_eq_true']
    apply List.any_eq_false.mpr
    intro r hr
    simp only [beq_iff_eq]
    exact hnomatch r hr

/-- C8 witness: explicit names `["foo", "ghost"]` against the one-repo
listing; `ghost` is warned about, the run exits 0, and all calls target
listed repositories. -/
theorem run_acts_on_listed_subset_witness :
    ((run runWorldDemo "x" (some ["foo", "ghost"])).selected ⊆
        getRepositories runWorldDemo.localeCompare [rawFoo])
    ∧ (run runWorldDemo "x" (some ["foo", "ghost"])).exitCode = 0
    ∧ (∀ c ∈ (run runWorldDemo "x" (some ["foo", "ghost"])).calls,
        ∃ r ∈ getRepositories runWorldDemo.localeCompare [rawFoo],
          c.repo = r.name)
    ∧ (∀ L : List String, some ["foo", "ghost"] = some L → L ≠ [] →
        ∀ n ∈ L,
          (∀ r ∈ getRepositories runWorldDemo.localeCompare [rawFoo],
            r.name ≠ n) →
          n ∈ (run runWorldDemo "x" (some ["foo", "ghost"])).warnedNotFound) :=
  run_acts_on_listed_subset runWorldDemo "x" (some ["foo", "ghost"]) "acme"
    [rawFoo]
    (selectByNames (getRepositories runWorldDemo.localeCompare [rawFoo])
      ["foo", "ghost"]).1
    (selectByNames (getRepositories runWorldDemo.localeCompare [rawFoo])
      ["foo", "ghost"]).2
    rfl rfl
    (by
      intro s hs
      injection hs with h
      subst h
      exact List.Subset.refl _)
    rfl

/-- The statable core of the Lister's sort: for any transitive, total
comparator the Lister's output is pairwise ordered by it and is a
permutation of the normalized listing (so, the comparator being fixed by
the runtime, the output is a function of the input listing).  What this
development cannot settle is the characterization of
`String.prototype.localeCompare` itself, whose collation is supplied by
the runtime's locale data. -/
theorem getRepositories_sorted_of_comparator (cmp : String → String → Int)
    (htrans : ∀ a b c : String, cmp a b ≤ 0 → cmp b c ≤ 0 → cmp a c ≤ 0)
    (htotal : ∀ a b : String, cmp a b ≤ 0 ∨ cmp b a ≤ 0)
    (raw : List RawRepo) :
    List.Pairwise (fun a b : Repository => cmp a.full_name b.full_name ≤ 0)
      (getRepositories cmp raw)
    ∧ (getRepositories cmp raw).Perm (raw.map normalizeRepo) := by
  refine ⟨?_, List.mergeSort_perm _ _⟩
  have h := @List.sorted_mergeSort Repository
    (fun a b : Repository => decide (cmp a.full_name b.full_name ≤ 0))
    (fun a b c hab hbc => by
      simp only [decide_eq_true_eq] at hab hbc ⊢
      exact htrans _ _ _ hab hbc)
    (fun a b => by
      simp only [Bool.or_eq_true, decide_eq_true_eq]
      exact htotal _ _)
    (raw.map normalizeRepo)
  refine List.Pairwise.imp ?_ h
  intro a b hab
  simpa using hab
